import Mathlib

/-!
Verification development for the metamath-logic Hilbert-style proof
construction pipeline (propositional fragment).

The embedding follows `src/logic/propositional/hilbert/`:
  * `_syntactic.py`  — rule objects (Wi, Mp, Wn, Wa) and the rule bundle
  * `__init__.py`    — `HilbertSystem` (make / compile / apply)
  * `_internal.py`   — `_compile` / `_apply` helpers used by the builder
  * `lemmas.py`      — `ProofStep`, `LemmaProof`, `LemmaBuilder`, `prove_L1_id`
  * `axioms.py`      — axiom schemas A1, A2, A3
  * `definitions.py` — `Definition` macros and `Or`
  * `_structures.py` — constructor/arity/sort declarations

Parts of the pipeline live in the sibling build units `prelude` and `skfd`
whose sources are not available here (the token-level lowering functions,
`try_parse_imp`, the textual formula surface, `RuleApp.check`, and the
error classes).  Those are modelled from the specification; each such
definition carries a doc comment starting with `Modelled from the spec:`.
-/

/-- Modelled from the spec: symbol identities.  The Symbol Interner maps each
(name, namespace) pair to a stable identity; distinct names never collide.
We embed an identity as either one of the fixed builtin constants used by the
lowering functions (parenthesis, arrow, negation, conjunction) or an interned
variable carrying its name (interning is injective on names within the single
authoring namespace used here, so name equality coincides with identity
equality). -/
inductive Tok where
  | lp : Tok
  | rp : Tok
  | arrow : Tok
  | neg : Tok
  | conj : Tok
  | var : String → Tok
deriving DecidableEq, Repr

/-- Token-level formula (`skfd.authoring.formula.Wff`): a sort tag plus an
ordered sequence of symbol identities. -/
structure Wff where
  sort : String
  tokens : List Tok
deriving DecidableEq, Repr

/-- Error kinds of the compiler / rule engine
(`skfd.authoring.typing.PreludeTypingError` / `PreludeShapeError`). -/
inductive PErr where
  | typing : String → PErr
  | shape : String → PErr
deriving DecidableEq, Repr

/-- The message carried by a compiler / rule-engine error. -/
def PErr.msg : PErr → String
  | .typing m => m
  | .shape m => m

/-- Errors surfaced by the proof builder: either a propagated rule-engine or
compiler error, or the builder-local referential-integrity failure that
`LemmaBuilder.mp` raises as a `ValueError`. -/
inductive BErr where
  | prelude : PErr → BErr
  | value : String → BErr
deriving DecidableEq, Repr

/-- Modelled from the spec: the lowering function `prelude.formula.imp`
assembles the implication token sequence by concatenating an opening
parenthesis, the antecedent tokens, the arrow, the consequent tokens and a
closing parenthesis (the shape `( phi -> psi )` named by `Mp`'s error
message), with the well-formed-formula sort. -/
def imp (a b : Wff) : Wff :=
  ⟨"wff", Tok.lp :: (a.tokens ++ Tok.arrow :: (b.tokens ++ [Tok.rp]))⟩

/-- Modelled from the spec: the lowering function `prelude.formula.wn`
prefixes the negation token (set.mm shape `-. ph`, no parentheses). -/
def wn (a : Wff) : Wff :=
  ⟨"wff", Tok.neg :: a.tokens⟩

/-- Modelled from the spec: the lowering function `prelude.formula.wa`
parenthesises the conjunction (set.mm shape `( ph /\ ps )`). -/
def wa (a b : Wff) : Wff :=
  ⟨"wff", Tok.lp :: (a.tokens ++ Tok.conj :: (b.tokens ++ [Tok.rp]))⟩

/-- The candidate antecedent / consequent token slices produced when a token
sequence parses as an implication application. -/
structure ImpShape where
  phi : List Tok
  psi : List Tok
deriving DecidableEq, Repr

/-- Scan for the first arrow token at parenthesis depth zero, returning the
tokens before it and the tokens after it. -/
def splitAtArrow : List Tok → Nat → Option (List Tok × List Tok)
  | [], _ => none
  | t :: rest, d =>
    if t = Tok.arrow ∧ d = 0 then some ([], rest)
    else
      (splitAtArrow rest (if t = Tok.lp then d + 1 else if t = Tok.rp then d - 1 else d)).map
        (fun p => (t :: p.1, p.2))

/-- Modelled from the spec: `prelude.formula.try_parse_imp` attempts to parse
a token sequence as an implication application, yielding the candidate
antecedent slice and consequent slice; it fails when the shape is not
`( phi -> psi )`. -/
def try_parse_imp (toks : List Tok) : Option ImpShape :=
  match toks with
  | Tok.lp :: rest =>
    match rest.getLast? with
    | some Tok.rp =>
      match splitAtArrow rest.dropLast 0 with
      | some p => some ⟨p.1, p.2⟩
      | none => none
    | _ => none
  | _ => none

/-- Authoring-level expression (`skfd.authoring.dsl.Expr`): a tree of
constructor applications over named formal variables, as built by
`Constructor.__call__` from `_structures.py`. -/
inductive Expr where
  | var : String → Expr
  | app : String → List Expr → Expr
deriving Repr

/-- A constructor signature (`require(...)` in `_structures.py`): declared
arity, operand sorts, result sort. -/
structure CtorSig where
  arity : Nat
  in_sorts : List String
  out_sort : String
deriving DecidableEq, Repr

/-- The signature registry declared in `_structures.py`:
implication, negation and conjunction, all over the sort `wff`. -/
def ctorRegistry : List (String × CtorSig) :=
  [("→", ⟨2, ["wff", "wff"], "wff"⟩),
   ("¬", ⟨1, ["wff"], "wff"⟩),
   ("∧", ⟨2, ["wff", "wff"], "wff"⟩)]

/-- Look a constructor up in the signature registry. -/
def lookupSig (c : String) : Option CtorSig :=
  (ctorRegistry.find? (fun p => p.1 = c)).map (fun p => p.2)

/-- The error produced for a constructor application that cannot be lowered:
an unknown constructor, or a known constructor applied at the wrong arity. -/
def ctorErr (c : String) (n : Nat) : PErr :=
  match lookupSig c with
  | none => .typing ("unknown constructor " ++ c)
  | some sig =>
      .typing ("arity mismatch for " ++ c ++ ": expects " ++ toString sig.arity
        ++ " args, got " ++ toString n)

/-- Modelled from the spec: the compiler `skfd.authoring.dsl.compile_wff`.
Recursive descent: a leaf variable resolves via the interner under the
environment origin; an internal node looks up its constructor signature,
recursively compiles each child, checks each child sort against the declared
operand sort, then invokes the lowering function to assemble the parent
token sequence.  Failure modes: arity mismatch, sort mismatch, unknown
constructor. -/
def compile_wff : Expr → Except PErr Wff
  | .var n => .ok ⟨"wff", [Tok.var n]⟩
  | .app c [a] =>
    if c = "¬" then
      match compile_wff a with
      | .error e => .error e
      | .ok x =>
        if x.sort = "wff" then .ok (wn x)
        else .error (.typing "sort mismatch for operand of ¬")
    else .error (ctorErr c 1)
  | .app c [a, b] =>
    if c = "→" then
      match compile_wff a with
      | .error e => .error e
      | .ok x =>
        match compile_wff b with
        | .error e => .error e
        | .ok y =>
          if x.sort = "wff" ∧ y.sort = "wff" then .ok (imp x y)
          else .error (.typing "sort mismatch for operand of →")
    else if c = "∧" then
      match compile_wff a with
      | .error e => .error e
      | .ok x =>
        match compile_wff b with
        | .error e => .error e
        | .ok y =>
          if x.sort = "wff" ∧ y.sort = "wff" then .ok (wa x y)
          else .error (.typing "sort mismatch for operand of ∧")
    else .error (ctorErr c 2)
  | .app c args => .error (ctorErr c args.length)

/-- `HilbertSystem.compile` / `_internal._compile`: lower an authoring
expression, wrapping any failure into a single `PreludeTypingError` whose
message is prefixed by the caller-supplied context string. -/
def hilbertCompile (e : Expr) (ctx : String) : Except PErr Wff :=
  match compile_wff e with
  | .ok w => .ok w
  | .error e => .error (.typing (ctx ++ ": " ++ e.msg))

/-- A named hypothesis wrapper (`skfd.authoring.typing.Hypothesis`). -/
structure Hypothesis where
  name : String
  body : Wff
deriving DecidableEq, Repr

/-- A rule signature (`skfd.authoring.typing.RuleSig`). -/
structure RuleSig where
  in_sorts : List String
  out_sort : String
deriving DecidableEq, Repr

/-- Modelled from the spec: `require_hyp_sort_typed` — the defensive sort
check performed by each rule implementation. -/
def require_hyp_sort_typed (h : Hypothesis) (s : String) (ctx : String) :
    Except PErr Unit :=
  if h.body.sort = s then .ok ()
  else .error (.typing (ctx ++ ": hypothesis " ++ h.name ++ " has wrong sort"))

/-- `Mp.__call__` from `_syntactic.py`: Modus Ponens.  The first operand is
the antecedent hypothesis (`hyp_phi`), the second the implication hypothesis
(`hyp_imp`).  After the sort checks, the implication operand is parsed as
`( phi -> psi )`; a parse failure is a shape error, an antecedent mismatch
(token-level) is a shape error, and on success the consequent slice is
returned with the well-formed-formula sort. -/
def Mp (hyp_phi hyp_imp : Hypothesis) : Except PErr Wff :=
  match require_hyp_sort_typed hyp_phi "wff" "mp" with
  | .error e => .error e
  | .ok _ =>
    match require_hyp_sort_typed hyp_imp "wff" "mp" with
    | .error e => .error e
    | .ok _ =>
      match try_parse_imp hyp_imp.body.tokens with
      | none => .error (.shape "mp: expected token shape ( phi -> psi )")
      | some shp =>
        if hyp_phi.body.tokens = shp.phi then .ok ⟨"wff", shp.psi⟩
        else .error (.shape "mp: antecedent mismatch (token-level)")

/-- `Wi.__call__` from `_syntactic.py`: the syntactic implication
constructor rule. -/
def Wi (hphi hpsi : Hypothesis) : Except PErr Wff :=
  match require_hyp_sort_typed hphi "wff" "wi" with
  | .error e => .error e
  | .ok _ =>
    match require_hyp_sort_typed hpsi "wff" "wi" with
    | .error e => .error e
    | .ok _ => .ok (imp hphi.body hpsi.body)

/-- `Wn.__call__` from `_syntactic.py`: the syntactic negation
constructor rule. -/
def Wn (hphi : Hypothesis) : Except PErr Wff :=
  match require_hyp_sort_typed hphi "wff" "wn" with
  | .error e => .error e
  | .ok _ => .ok (wn hphi.body)

/-- `Wa.__call__` from `_syntactic.py`: the syntactic conjunction
constructor rule. -/
def Wa (hphi hpsi : Hypothesis) : Except PErr Wff :=
  match require_hyp_sort_typed hphi "wff" "wa" with
  | .error e => .error e
  | .ok _ =>
    match require_hyp_sort_typed hpsi "wff" "wa" with
    | .error e => .error e
    | .ok _ => .ok (wa hphi.body hpsi.body)

/-- A rule implementation as dispatched by `HilbertSystem.apply`:
a function of the ordered hypothesis list. -/
def RuleFn : Type := List Hypothesis → Except PErr Wff

/-- The rule implementations collected by `make_rules` in `_syntactic.py`,
keyed by label. -/
def hilbertRules (label : String) : Option RuleFn :=
  if label = "wi" then
    some (fun hyps => match hyps with
      | [h1, h2] => Wi h1 h2
      | _ => .error (.typing "wi: wrong number of hypotheses"))
  else if label = "mp" then
    some (fun hyps => match hyps with
      | [h1, h2] => Mp h1 h2
      | _ => .error (.typing "mp: wrong number of hypotheses"))
  else if label = "wn" then
    some (fun hyps => match hyps with
      | [h1] => Wn h1
      | _ => .error (.typing "wn: wrong number of hypotheses"))
  else if label = "wa" then
    some (fun hyps => match hyps with
      | [h1, h2] => Wa h1 h2
      | _ => .error (.typing "wa: wrong number of hypotheses"))
  else none

/-- The signatures collected from the rule objects by `make_rules`. -/
def hilbertSigs : List (String × RuleSig) :=
  [("wi", ⟨["wff", "wff"], "wff"⟩),
   ("mp", ⟨["wff", "wff"], "wff"⟩),
   ("wn", ⟨["wff"], "wff"⟩),
   ("wa", ⟨["wff", "wff"], "wff"⟩)]

/-- Look a rule label up in the collected signature table. -/
def lookupRuleSig (label : String) : Option RuleSig :=
  (hilbertSigs.find? (fun p => p.1 = label)).map (fun p => p.2)

/-- Modelled from the spec: `RuleApp.check`, the signature-check phase of
rule application — verify the rule label is known in the collected signature
table, the hypothesis count matches the declared signature, and each
hypothesis sort matches the declared operand sort.  Failures are typing
errors tagged with the caller-supplied context string. -/
def ruleAppCheck (sigs : List (String × RuleSig)) (label : String)
    (hyps : List Hypothesis) (ctx : String) : Except PErr Unit :=
  match (sigs.find? (fun p => p.1 = label)).map (fun p => p.2) with
  | none => .error (.typing (ctx ++ ": unknown rule " ++ label))
  | some sig =>
    if hyps.length ≠ sig.in_sorts.length then
      .error (.typing (ctx ++ ": hypothesis count mismatch for rule " ++ label))
    else if (hyps.zip sig.in_sorts).all (fun p => p.1.body.sort == p.2) then .ok ()
    else .error (.typing (ctx ++ ": hypothesis sort mismatch for rule " ++ label))

/-- The `HilbertSystem` dataclass from `__init__.py`: the collected rule
implementations, their signatures (held by `rule_app`), and the
author-facing axiom table. -/
structure HilbertSystem where
  rules : String → Option RuleFn
  sigs : List (String × RuleSig)
  axioms : List (String × Expr)

/-- `HilbertSystem.apply` / `_internal._apply`: two-phase rule application —
the signature check against the system's collected signatures, then lookup
and invocation of the rule implementation. -/
def HilbertSystem.apply (sys : HilbertSystem) (label : String)
    (hyps : List Hypothesis) (ctx : String) : Except PErr Wff :=
  match ruleAppCheck sys.sigs label hyps ctx with
  | .error e => .error e
  | .ok _ =>
    match sys.rules label with
    | none => .error (.typing (ctx ++ ": missing rule implementation for " ++ label))
    | some fn => fn hyps

/-- The formal variable φ of `_structures.py`. -/
def phi : Expr := .var "φ"

/-- The formal variable ψ of `_structures.py`. -/
def psi : Expr := .var "ψ"

/-- The formal variable χ of `_structures.py`. -/
def chi : Expr := .var "χ"

/-- The `Imp` constructor of `_structures.py` applied to two expressions. -/
def Imp (a b : Expr) : Expr := .app "→" [a, b]

/-- The `Not` constructor of `_structures.py` applied to an expression. -/
def NotE (a : Expr) : Expr := .app "¬" [a]

/-- The `And` constructor of `_structures.py` applied to two expressions. -/
def AndE (a b : Expr) : Expr := .app "∧" [a, b]

/-- Axiom schema A1 from `axioms.py`: φ → (ψ → φ). -/
def A1 : Expr := Imp phi (Imp psi phi)

/-- Axiom schema A2 from `axioms.py`:
(φ → (ψ → χ)) → ((φ → ψ) → (φ → χ)). -/
def A2 : Expr := Imp (Imp phi (Imp psi chi)) (Imp (Imp phi psi) (Imp phi chi))

/-- Axiom schema A3 from `axioms.py`: (¬φ → ¬ψ) → (ψ → φ). -/
def A3 : Expr := Imp (Imp (NotE phi) (NotE psi)) (Imp psi phi)

/-- `make_axioms` from `axioms.py`: the exported axiom table. -/
def make_axioms : List (String × Expr) :=
  [("A1", A1), ("A2", A2), ("A3", A3)]

/-- `HilbertSystem.make`: construct the system — bind the builtins, collect
the rule bundle and signatures from the rule objects, and attach the axiom
table.  No rule-label validation against caller-supplied labels happens
here; the construction itself cannot fail on an unknown label. -/
def HilbertSystem.make : Except PErr HilbertSystem :=
  .ok ⟨hilbertRules, hilbertSigs, make_axioms⟩

/-- The constructed system used by the proof scripts. -/
def hilbertSystem : HilbertSystem := ⟨hilbertRules, hilbertSigs, make_axioms⟩

/-- Rule application through the constructed system (the form invoked by
`LemmaBuilder.mp` as `self.sys._apply`). -/
def hilbertApply (label : String) (hyps : List Hypothesis) (ctx : String) :
    Except PErr Wff :=
  hilbertSystem.apply label hyps ctx

/-- Split a character list into whitespace-separated word strings
(accumulating the current word in reverse). -/
def tokenizeAux : List Char → List Char → List String
  | [], acc => if acc.isEmpty then [] else [String.mk acc.reverse]
  | c :: cs, acc =>
    if c = ' ' then
      if acc.isEmpty then tokenizeAux cs []
      else String.mk acc.reverse :: tokenizeAux cs []
    else tokenizeAux cs (c :: acc)

/-- Parse an atom of the authoring surface: a negation applied to an atom, a
parenthesised expression, or a formal variable. -/
def parseAtom : Nat → List String → Option (Expr × List String)
  | 0, _ => none
  | _ + 1, [] => none
  | f + 1, tok :: rest =>
    if tok = "¬" then
      (parseAtom f rest).map (fun p => (Expr.app "¬" [p.1], p.2))
    else if tok = "(" then
      match parseExpr f rest with
      | some (e, ")" :: rest2) => some (e, rest2)
      | _ => none
    else if tok = ")" ∨ tok = "→" ∨ tok = "->" ∨ tok = "∧" then none
    else some (Expr.var tok, rest)
where
  /-- Parse an expression: an atom optionally followed by a right-associated
  implication (written `→` or `->`) or conjunction. -/
  parseExpr : Nat → List String → Option (Expr × List String)
  | 0, _ => none
  | f + 1, ts =>
    match parseAtom f ts with
    | none => none
    | some (a, rest) =>
      match rest with
      | op :: rest2 =>
        if op = "→" ∨ op = "->" then
          (parseExpr f rest2).map (fun p => (Expr.app "→" [a, p.1], p.2))
        else if op = "∧" then
          (parseExpr f rest2).map (fun p => (Expr.app "∧" [a, p.1], p.2))
        else some (a, rest)
      | [] => some (a, [])

/-- Modelled from the spec: the textual formula surface
(`skfd.authoring.parsing.wff`) — an alternate authoring surface that must
compile to the same `Expr` representation before reaching the compiler. -/
def wff (s : String) : Except PErr Expr :=
  let ts := tokenizeAux s.toList []
  match parseAtom.parseExpr (2 * ts.length + 2) ts with
  | some (e, []) => .ok e
  | _ => .error (.typing ("parse failed for " ++ s))

/-- `ProofStep` from `lemmas.py`: one recorded step — label, resulting
formula, note, operation kind, operand step labels, optional reference. -/
structure ProofStep where
  label : String
  wff : Wff
  note : String
  op : String
  args : List String
  ref : Option String
deriving DecidableEq, Repr

/-- `LemmaProof` from `lemmas.py`: the finished proof artifact. -/
structure LemmaProof where
  name : String
  statement : Wff
  steps : List ProofStep
deriving DecidableEq, Repr

/-- A formula value together with its Python object identity: the builder's
provenance map `_wff_to_label` is keyed by `id(stmt)`, so two token-identical
formulas produced by different calls have distinct keys.  Identities are
modelled as numbers, fresh for every produced formula. -/
structure WffRef where
  oid : Nat
  w : Wff
deriving DecidableEq, Repr

/-- The mutable state of a `LemmaBuilder` from `lemmas.py`: the accumulated
steps, the provenance map from formula identity to step label, and the next
fresh object identity. -/
structure LemmaBuilder where
  name : String
  steps : List ProofStep
  wffToLabel : List (Nat × String)
  nextId : Nat
deriving Repr

/-- `LemmaBuilder.__init__`: a fresh builder for the given lemma name. -/
def LemmaBuilder.init (name : String) : LemmaBuilder := ⟨name, [], [], 0⟩

/-- Look an object identity up in the provenance map
(`self._wff_to_label.get(id(...))`). -/
def provLookup (m : List (Nat × String)) (oid : Nat) : Option String :=
  (m.find? (fun p => p.1 = oid)).map (fun p => p.2)

/-- `LemmaBuilder._compile_str`: parse the authored string (re-raising a
parse failure as a typing error prefixed by the step label), then compile it
through the system with the step label as context. -/
def LemmaBuilder.compileStr (label exprStr : String) : Except PErr Wff :=
  match wff exprStr with
  | .error e => .error (.typing (label ++ ": parse failed for " ++ exprStr ++ " -- " ++ e.msg))
  | .ok e => hilbertCompile e label

/-- `LemmaBuilder.hyp`: compile the authored string, append a hypothesis
step, remember the produced formula's provenance, and return the formula. -/
def LemmaBuilder.hyp (lb : LemmaBuilder) (label exprStr : String) :
    Except BErr (WffRef × LemmaBuilder) :=
  match LemmaBuilder.compileStr label exprStr with
  | .error e => .error (.prelude e)
  | .ok stmt =>
    .ok (⟨lb.nextId, stmt⟩,
      ⟨lb.name, lb.steps ++ [⟨label, stmt, "Hypothesis", "hyp", [], none⟩],
        (lb.nextId, label) :: lb.wffToLabel, lb.nextId + 1⟩)

/-- `LemmaBuilder.ref`: compile the authored string, append a reference step
citing `refName`, remember provenance, and return the formula. -/
def LemmaBuilder.ref (lb : LemmaBuilder) (label exprStr refName note : String) :
    Except BErr (WffRef × LemmaBuilder) :=
  match LemmaBuilder.compileStr label exprStr with
  | .error e => .error (.prelude e)
  | .ok stmt =>
    .ok (⟨lb.nextId, stmt⟩,
      ⟨lb.name, lb.steps ++ [⟨label, stmt, note, "ref", [], some refName⟩],
        (lb.nextId, label) :: lb.wffToLabel, lb.nextId + 1⟩)

/-- `LemmaBuilder.raw`: compile the authored string, append an opaque step,
remember provenance, and return the formula. -/
def LemmaBuilder.raw (lb : LemmaBuilder) (label exprStr note : String) :
    Except BErr (WffRef × LemmaBuilder) :=
  match LemmaBuilder.compileStr label exprStr with
  | .error e => .error (.prelude e)
  | .ok stmt =>
    .ok (⟨lb.nextId, stmt⟩,
      ⟨lb.name, lb.steps ++ [⟨label, stmt, note, "raw", [], none⟩],
        (lb.nextId, label) :: lb.wffToLabel, lb.nextId + 1⟩)

/-- `LemmaBuilder.mp`: wrap the operands as hypotheses, invoke the rule
engine's Modus Ponens first, then look both operands up in the provenance
map by identity; a failed lookup raises the builder-local `ValueError`
(referential integrity), otherwise the step is appended with the operand
step labels and the result formula is remembered and returned. -/
def LemmaBuilder.mp (lb : LemmaBuilder) (label : String) (major minor : WffRef)
    (note : String) : Except BErr (WffRef × LemmaBuilder) :=
  match hilbertApply "mp"
      [⟨"h_" ++ label ++ "_maj", major.w⟩, ⟨"h_" ++ label ++ "_min", minor.w⟩] label with
  | .error e => .error (.prelude e)
  | .ok res =>
    match provLookup lb.wffToLabel major.oid, provLookup lb.wffToLabel minor.oid with
    | some majLabel, some minLabel =>
      .ok (⟨lb.nextId, res⟩,
        ⟨lb.name, lb.steps ++ [⟨label, res, note, "mp", [majLabel, minLabel], none⟩],
          (lb.nextId, label) :: lb.wffToLabel, lb.nextId + 1⟩)
    | _, _ =>
      .error (.value (label ++ ": mp args must be steps created by this LemmaBuilder"))

/-- `LemmaBuilder.build`: freeze the accumulated steps into a `LemmaProof`
whose statement is the caller-supplied formula.  No check relates the
statement to the recorded steps. -/
def LemmaBuilder.build (lb : LemmaBuilder) (statement : Wff) : LemmaProof :=
  ⟨lb.name, statement, lb.steps⟩

/-- `prove_L1_id` from `lemmas.py`: the identity law φ → φ derived from A1
(instantiated twice), A2 (instantiated once) and two Modus Ponens steps,
with the exact authored strings of the source. -/
def prove_L1_id : Except BErr LemmaProof := do
  let lb0 := LemmaBuilder.init "L1_id"
  let (s1, lb1) ← lb0.ref "s1" "φ → ( φ → φ )" "A1" "A1 with ( φ,  ψ) = (φ, φ)"
  let (s2, lb2) ← lb1.ref "s2"
    "( φ → ( ( φ → φ ) -> φ ) ) -> ( ( φ → ( φ → φ ) ) -> ( φ → φ ) )"
    "A2" "A2 with ( φ,  ψ, χ) = (φ, (φ→φ), φ)"
  let (s3, lb3) ← lb2.ref "s3" "φ → ( ( φ → φ ) -> φ )" "A1" "A1 with ( φ,  ψ) = (φ, (φ→φ))"
  let (s4, lb4) ← lb3.mp "s4" s3 s2 "mp on s3 and s2"
  let (s5, lb5) ← lb4.mp "s5" s1 s4 "mp on s1 and s4"
  return lb5.build s5.w

/-- `Definition` from `definitions.py`: a definitional macro — a name, a
declared arity, and a body mapping argument expressions to an expression. -/
structure Definition where
  name : String
  arity : Nat
  body : List Expr → Expr

/-- `Definition.apply`: raise a typing error when the number of supplied
arguments differs from the declared arity, otherwise return the expression
produced by the body. -/
def Definition.apply (d : Definition) (args : List Expr) : Except PErr Expr :=
  if args.length ≠ d.arity then
    .error (.typing ("definition " ++ d.name ++ ": expects " ++ toString d.arity
      ++ " args, got " ++ toString args.length))
  else .ok (d.body args)

/-- `Definition.expand`: expand the definition into core language
expressions; delegates to `Definition.apply`. -/
def Definition.expand (d : Definition) (args : List Expr) : Except PErr Expr :=
  d.apply args

/-- The `Or` definition from `definitions.py`: Or(a, b) := ¬a → b.  (Named
`OrDef` here because `Or` is taken by the logic of the ambient prover.) -/
def OrDef : Definition :=
  ⟨"Or", 2, fun args => Imp (NotE (args.getD 0 (Expr.var "?"))) (args.getD 1 (Expr.var "?"))⟩

/-- Depth bookkeeping for a token scan: the final parenthesis depth after
processing the tokens starting from depth `d`, provided no arrow token is
met at depth zero and no closing parenthesis is met at depth zero. -/
def okFrom : List Tok → Nat → Option Nat
  | [], d => some d
  | t :: ts, d =>
    if t = Tok.arrow then (if d = 0 then none else okFrom ts d)
    else if t = Tok.lp then okFrom ts (d + 1)
    else if t = Tok.rp then (if d = 0 then none else okFrom ts (d - 1))
    else okFrom ts d

/-- Whether an authoring expression's root is the implication constructor. -/
def isImpRootE : Expr → Bool
  | .app "→" _ => true
  | _ => false

/-- Provenance well-formedness of a builder: every label recorded in the
provenance map names a step recorded by this builder. -/
def provWF (lb : LemmaBuilder) : Prop :=
  ∀ p ∈ lb.wffToLabel, ∃ s ∈ lb.steps, s.label = p.2

/-- A concrete builder that recorded one reference step producing the
formula for φ (used to exercise the builder claims at concrete inputs). -/
def c3Builder : LemmaBuilder :=
  match (LemmaBuilder.init "t").ref "s1" "φ" "A1" "" with
  | .ok p => p.2
  | .error _ => LemmaBuilder.init "t"

/-- The concrete builder state after recording one hypothesis step for φ on
a fresh builder (used as an explicit witness state). -/
def c9Lb2 : LemmaBuilder :=
  ⟨"t", [⟨"h1", ⟨"wff", [Tok.var "φ"]⟩, "Hypothesis", "hyp", [], none⟩], [(0, "h1")], 1⟩

/-- A concrete builder that recorded two reference steps: φ (label s1) and
φ → ψ (label s2). -/
def c9Builder : LemmaBuilder :=
  match c3Builder.ref "s2" "φ → ψ" "A1" "" with
  | .ok p => p.2
  | .error _ => c3Builder

/-- The builder state reached from `c9Builder` by a successful Modus Ponens
step citing its two recorded steps. -/
def c9AfterMp : LemmaBuilder :=
  match c9Builder.mp "s3" ⟨0, ⟨"wff", [Tok.var "φ"]⟩⟩
      ⟨1, ⟨"wff", [Tok.lp, Tok.var "φ", Tok.arrow, Tok.var "ψ", Tok.rp]⟩⟩ "n" with
  | .ok p => p.2
  | .error _ => c9Builder

theorem okFrom_append : ∀ (xs ys : List Tok) (d : Nat),
    okFrom (xs ++ ys) d = (okFrom xs d).bind (fun d2 => okFrom ys d2) := by
  intro xs
  induction xs with
  | nil => intro ys d; simp [okFrom]
  | cons t ts ih =>
    intro ys d
    simp only [List.cons_append, okFrom]
    split_ifs <;> simp [ih]

theorem splitAtArrow_skip : ∀ (xs : List Tok) (d d2 : Nat) (rest : List Tok),
    okFrom xs d = some d2 →
    splitAtArrow (xs ++ rest) d = (splitAtArrow rest d2).map (fun p => (xs ++ p.1, p.2)) := by
  intro xs
  induction xs with
  | nil =>
    intro d d2 rest h
    simp only [okFrom] at h
    injection h with h
    subst h
    simp only [List.nil_append]
    cases hs : splitAtArrow rest d <;> simp [hs]
  | cons t ts ih =>
    intro d d2 rest h
    simp only [okFrom] at h
    simp only [List.cons_append, splitAtArrow, List.append_eq]
    by_cases ha : t = Tok.arrow
    · rw [if_pos ha] at h
      by_cases hd : d = 0
      · rw [if_pos hd] at h; exact absurd h (by simp)
      · rw [if_neg hd] at h
        have hlp : ¬(t = Tok.lp) := by subst ha; simp
        have hrp : ¬(t = Tok.rp) := by subst ha; simp
        rw [if_neg (by tauto), if_neg hlp, if_neg hrp, ih d d2 rest h]
        cases splitAtArrow rest d2 <;> simp
    · rw [if_neg ha] at h
      rw [if_neg (by tauto)]
      by_cases hlp : t = Tok.lp
      · rw [if_pos hlp] at h
        rw [if_pos hlp, ih (d + 1) d2 rest h]
        cases splitAtArrow rest d2 <;> simp
      · rw [if_neg hlp] at h
        rw [if_neg hlp]
        by_cases hrp : t = Tok.rp
        · rw [if_pos hrp] at h
          by_cases hd : d = 0
          · rw [if_pos hd] at h; exact absurd h (by simp)
          · rw [if_neg hd] at h
            rw [if_pos hrp, ih (d - 1) d2 rest h]
            cases splitAtArrow rest d2 <;> simp
        · rw [if_neg hrp] at h
          rw [if_neg hrp, ih d d2 rest h]
          cases splitAtArrow rest d2 <;> simp

theorem compile_inv : ∀ (e : Expr) (w : Wff), compile_wff e = .ok w →
    w.sort = "wff" ∧ ∀ d, okFrom w.tokens d = some d := by
  intro e
  induction e using compile_wff.induct
  all_goals intro w hw
  all_goals simp only [compile_wff] at hw
  all_goals simp_all
  case case1 n =>
    subst hw
    exact ⟨rfl, fun d => by simp [okFrom]⟩
  case case3 a x hcomp ih =>
    subst hw
    obtain ⟨hs, hok⟩ := ih
    exact ⟨rfl, fun d => by simp [wn, okFrom, hok d]⟩
  case case8 a b x hca y hcb ih1 ih2 =>
    subst hw
    obtain ⟨hsx, hokx⟩ := ih1
    obtain ⟨hsy, hoky⟩ := ih2
    refine ⟨rfl, fun d => ?_⟩
    simp [imp, okFrom, okFrom_append, hokx, hoky]
  case case12 a b x hca y hcb ih1 ih2 =>
    subst hw
    obtain ⟨hsx, hokx⟩ := ih1
    obtain ⟨hsy, hoky⟩ := ih2
    refine ⟨rfl, fun d => ?_⟩
    simp [wa, okFrom, okFrom_append, hokx, hoky]

theorem splitAtArrow_self_none (y : List Tok) (hy : okFrom y 0 = some 0) :
    splitAtArrow y 0 = none := by
  have h := splitAtArrow_skip y 0 0 [] hy
  simpa [splitAtArrow] using h

theorem try_parse_imp_imp (x y : Wff) (hx : ∀ d, okFrom x.tokens d = some d) :
    try_parse_imp (Tok.lp :: (x.tokens ++ Tok.arrow :: (y.tokens ++ [Tok.rp])))
      = some ⟨x.tokens, y.tokens⟩ := by
  simp only [try_parse_imp]
  have hre : x.tokens ++ Tok.arrow :: (y.tokens ++ [Tok.rp])
      = (x.tokens ++ Tok.arrow :: y.tokens) ++ [Tok.rp] := by simp
  rw [hre, List.getLast?_concat, List.dropLast_concat]
  rw [splitAtArrow_skip x.tokens 0 0 _ (hx 0)]
  simp [splitAtArrow]

theorem try_parse_imp_imp_w (x y : Wff) (hx : ∀ d, okFrom x.tokens d = some d) :
    try_parse_imp (imp x y).tokens = some ⟨x.tokens, y.tokens⟩ :=
  try_parse_imp_imp x y hx

theorem try_parse_imp_var (n : String) : try_parse_imp [Tok.var n] = none := rfl

theorem try_parse_imp_wn (x : Wff) : try_parse_imp (wn x).tokens = none := rfl

theorem try_parse_imp_wa (x y : Wff) (hx : ∀ d, okFrom x.tokens d = some d)
    (hy : ∀ d, okFrom y.tokens d = some d) :
    try_parse_imp (wa x y).tokens = none := by
  simp only [wa, try_parse_imp]
  have hre : x.tokens ++ Tok.conj :: (y.tokens ++ [Tok.rp])
      = (x.tokens ++ Tok.conj :: y.tokens) ++ [Tok.rp] := by simp
  rw [hre, List.getLast?_concat, List.dropLast_concat]
  rw [splitAtArrow_skip x.tokens 0 0 _ (hx 0)]
  simp [splitAtArrow, splitAtArrow_self_none y.tokens (hy 0)]

theorem hilbertApply_mp_eq (h1 h2 : Hypothesis) (ctx : String)
    (s1 : h1.body.sort = "wff") (s2 : h2.body.sort = "wff") :
    hilbertApply "mp" [h1, h2] ctx = Mp h1 h2 := by
  simp [hilbertApply, HilbertSystem.apply, hilbertSystem, ruleAppCheck, hilbertSigs,
    hilbertRules, List.find?, s1, s2]

theorem Mp_ok (x y : Wff) (n1 n2 : String) (hxs : x.sort = "wff")
    (hx : ∀ d, okFrom x.tokens d = some d) :
    Mp ⟨n1, x⟩ ⟨n2, imp x y⟩ = .ok ⟨"wff", y.tokens⟩ := by
  simp [Mp, require_hyp_sort_typed, hxs, imp, try_parse_imp_imp x y hx]

theorem Mp_mismatch (q x y : Wff) (n1 n2 : String) (hqs : q.sort = "wff")
    (hx : ∀ d, okFrom x.tokens d = some d) (hne : q.tokens ≠ x.tokens) :
    Mp ⟨n1, q⟩ ⟨n2, imp x y⟩ = .error (.shape "mp: antecedent mismatch (token-level)") := by
  simp [Mp, require_hyp_sort_typed, hqs, imp, try_parse_imp_imp x y hx, hne]

theorem Mp_notimp (q w : Wff) (n1 n2 : String) (hqs : q.sort = "wff")
    (hws : w.sort = "wff") (hpar : try_parse_imp w.tokens = none) :
    Mp ⟨n1, q⟩ ⟨n2, w⟩ = .error (.shape "mp: expected token shape ( phi -> psi )") := by
  simp [Mp, require_hyp_sort_typed, hqs, hws, hpar]

theorem compile_imp_eq (a b : Expr) (x y wi : Wff) (ha : compile_wff a = .ok x)
    (hb : compile_wff b = .ok y) (hi : compile_wff (Imp a b) = .ok wi) : wi = imp x y := by
  simp [Imp, compile_wff, ha, hb, (compile_inv a x ha).1, (compile_inv b y hb).1] at hi
  exact hi.symm

theorem compile_notimp_parse (e : Expr) (w : Wff) (hc : compile_wff e = .ok w)
    (hroot : isImpRootE e = false) : try_parse_imp w.tokens = none := by
  match e with
  | .var n =>
    simp only [compile_wff, Except.ok.injEq] at hc
    subst hc
    exact try_parse_imp_var n
  | .app c [] => simp [compile_wff] at hc
  | .app c [a] =>
    simp only [compile_wff] at hc
    by_cases hneg : c = "¬"
    · rw [if_pos hneg] at hc
      cases hca : compile_wff a with
      | error e => rw [hca] at hc; simp at hc
      | ok x =>
        rw [hca] at hc
        by_cases hxs : x.sort = "wff"
        · simp only [hxs, if_true] at hc
          injection hc with hc
          subst hc
          exact try_parse_imp_wn x
        · simp [hxs] at hc
    · rw [if_neg hneg] at hc; simp at hc
  | .app c [a, b] =>
    by_cases himp : c = "→"
    · exfalso
      rw [himp] at hroot
      exact absurd ((show isImpRootE (Expr.app "→" [a, b]) = true from rfl) ▸ hroot) (by simp)
    · simp only [compile_wff] at hc
      rw [if_neg himp] at hc
      by_cases hconj : c = "∧"
      · rw [if_pos hconj] at hc
        cases hca : compile_wff a with
        | error e => rw [hca] at hc; simp at hc
        | ok x =>
          rw [hca] at hc
          cases hcb : compile_wff b with
          | error e => rw [hcb] at hc; simp at hc
          | ok y =>
            rw [hcb] at hc
            by_cases hxy : x.sort = "wff" ∧ y.sort = "wff"
            · simp only [hxy, if_true] at hc
              injection hc with hc
              subst hc
              exact try_parse_imp_wa x y (compile_inv a x hca).2 (compile_inv b y hcb).2
            · simp [hxy] at hc
      · rw [if_neg hconj] at hc; simp at hc
  | .app c (a :: b :: c3 :: r) => simp [compile_wff] at hc

/-- Claim C1: Modus Ponens correctness — for compiled wff formulas, applying
the rule labelled mp with the compiled formula for the implication as the
implication-side operand and the compiled antecedent as the antecedent-side
operand returns exactly the formula of sort wff whose tokens are the
consequent slice; with any wff-sorted formula whose tokens differ from the
antecedent, it fails with the antecedent-mismatch shape error. -/
theorem C1_modus_ponens_correct :
    ∀ (a b : Expr) (x y wi : Wff) (n1 n2 ctx : String),
      compile_wff a = .ok x → compile_wff b = .ok y →
      compile_wff (Imp a b) = .ok wi →
      hilbertApply "mp" [⟨n1, x⟩, ⟨n2, wi⟩] ctx = .ok ⟨"wff", y.tokens⟩ ∧
      ∀ (q : Wff), q.sort = "wff" → q.tokens ≠ x.tokens →
        hilbertApply "mp" [⟨n1, q⟩, ⟨n2, wi⟩] ctx
          = .error (.shape "mp: antecedent mismatch (token-level)") := by
  intro a b x y wi n1 n2 ctx ha hb hi
  obtain ⟨hxs, hxok⟩ := compile_inv a x ha
  have hwi := compile_imp_eq a b x y wi ha hb hi
  subst hwi
  constructor
  · rw [hilbertApply_mp_eq _ _ _ hxs rfl]
    exact Mp_ok x y n1 n2 hxs hxok
  · intro q hqs hqt
    rw [hilbertApply_mp_eq _ _ _ hqs rfl]
    exact Mp_mismatch q x y n1 n2 hqs hxok hqt

theorem C1_witness :
    hilbertApply "mp"
        [⟨"h1", ⟨"wff", [Tok.var "φ"]⟩⟩,
         ⟨"h2", imp ⟨"wff", [Tok.var "φ"]⟩ ⟨"wff", [Tok.var "ψ"]⟩⟩] "c"
      = .ok ⟨"wff", [Tok.var "ψ"]⟩ ∧
    hilbertApply "mp"
        [⟨"h1", ⟨"wff", [Tok.var "χ"]⟩⟩,
         ⟨"h2", imp ⟨"wff", [Tok.var "φ"]⟩ ⟨"wff", [Tok.var "ψ"]⟩⟩] "c"
      = .error (.shape "mp: antecedent mismatch (token-level)") := by
  have h := C1_modus_ponens_correct phi psi ⟨"wff", [Tok.var "φ"]⟩ ⟨"wff", [Tok.var "ψ"]⟩
      (imp ⟨"wff", [Tok.var "φ"]⟩ ⟨"wff", [Tok.var "ψ"]⟩) "h1" "h2" "c" rfl rfl rfl
  exact ⟨h.1, h.2 ⟨"wff", [Tok.var "χ"]⟩ rfl (by decide)⟩

/-- Claim C4: Modus Ponens shape guard — any successfully compiled formula
whose authoring expression is not rooted in the implication constructor,
supplied as the implication-side operand, makes the mp rule fail with the
not-an-implication shape error. -/
theorem C4_shape_guard :
    ∀ (e : Expr) (w q : Wff) (n1 n2 ctx : String),
      compile_wff e = .ok w → isImpRootE e = false → q.sort = "wff" →
      hilbertApply "mp" [⟨n1, q⟩, ⟨n2, w⟩] ctx
        = .error (.shape "mp: expected token shape ( phi -> psi )") := by
  intro e w q n1 n2 ctx hc hroot hqs
  obtain ⟨hws, _⟩ := compile_inv e w hc
  rw [hilbertApply_mp_eq _ _ _ hqs hws]
  exact Mp_notimp q w n1 n2 hqs hws (compile_notimp_parse e w hc hroot)

theorem C4_witness :
    hilbertApply "mp"
        [⟨"h1", ⟨"wff", [Tok.var "ψ"]⟩⟩, ⟨"h2", ⟨"wff", [Tok.neg, Tok.var "φ"]⟩⟩] "c"
      = .error (.shape "mp: expected token shape ( phi -> psi )") :=
  C4_shape_guard (NotE phi) ⟨"wff", [Tok.neg, Tok.var "φ"]⟩ ⟨"wff", [Tok.var "ψ"]⟩
    "h1" "h2" "c" rfl rfl rfl

/-- Claim C7: compilation error surface — whenever compilation through the
system wrapper fails, the error is a single typing-kind error (never a
shape error) whose message begins with the caller-supplied context. -/
theorem C7_error_surface :
    ∀ (e : Expr) (ctx : String) (err : PErr),
      hilbertCompile e ctx = .error err →
      (∀ s, err ≠ PErr.shape s) ∧
      err.msg.toList.take ctx.toList.length = ctx.toList := by
  intro e ctx err h
  unfold hilbertCompile at h
  cases hce : compile_wff e with
  | ok w => rw [hce] at h; simp at h
  | error e0 =>
    rw [hce] at h
    injection h with h
    subst h
    refine ⟨fun s hs => PErr.noConfusion hs, ?_⟩
    show ((ctx ++ ": " ++ e0.msg)).toList.take ctx.toList.length = ctx.toList
    have hd : ((ctx ++ ": " ++ e0.msg)).toList = ctx.toList ++ (": " ++ e0.msg).toList := by
      simp [String.toList]
    rw [hd, List.take_left]

theorem C7_witness :
    ((PErr.typing "s1: unknown constructor ⊕") ≠ PErr.shape "mp") ∧
    (PErr.typing "s1: unknown constructor ⊕").msg.toList.take ("s1".toList.length)
      = "s1".toList := by
  have h := C7_error_surface (Expr.app "⊕" []) "s1" (.typing "s1: unknown constructor ⊕")
    (by rfl)
  exact ⟨h.1 "mp", h.2⟩

/-- Claim C10: definition-macro arity guard and expansion — apply raises the
typing error exactly when the argument count differs from the declared
arity, otherwise expand returns the body's expression; in particular the Or
definition expands Or(a, b) to Imp(Not(a), b). -/
theorem C10_definition_arity_guard :
    (∀ (d : Definition) (args : List Expr), args.length ≠ d.arity →
        d.apply args = .error (.typing ("definition " ++ d.name ++ ": expects "
          ++ toString d.arity ++ " args, got " ++ toString args.length))) ∧
    (∀ (d : Definition) (args : List Expr), args.length = d.arity →
        d.expand args = .ok (d.body args)) ∧
    (∀ (a b : Expr), OrDef.expand [a, b] = .ok (Imp (NotE a) b)) := by
  refine ⟨?_, ?_, ?_⟩
  · intro d args h
    simp [Definition.apply, h]
  · intro d args h
    simp [Definition.expand, Definition.apply, h]
  · intro a b
    rfl

theorem C10_witness :
    OrDef.apply [phi] = .error (.typing ("definition " ++ OrDef.name ++ ": expects "
      ++ toString OrDef.arity ++ " args, got " ++ toString ([phi] : List Expr).length)) ∧
    OrDef.expand [phi, psi] = .ok (Imp (NotE phi) psi) :=
  ⟨C10_definition_arity_guard.1 OrDef [phi] (by decide), C10_definition_arity_guard.2.2 phi psi⟩

/-- Claim C2: end-to-end scenario — `prove_L1_id` succeeds (no error), its
proof records three reference steps citing A1, A2, A1 followed by two Modus
Ponens steps, and its statement equals the independently compiled formula
for φ → φ; the system's axiom table carries the A1 and A2 schemas. -/
theorem C2_end_to_end :
    prove_L1_id.toOption.isSome = true ∧
    prove_L1_id.toOption.map LemmaProof.statement
      = (hilbertCompile (Imp phi phi) "independent").toOption ∧
    prove_L1_id.toOption.map (fun p => p.steps.map (fun s => (s.op, s.ref)))
      = some [("ref", some "A1"), ("ref", some "A2"), ("ref", some "A1"),
              ("mp", none), ("mp", none)] ∧
    hilbertSystem.axioms = [("A1", A1), ("A2", A2), ("A3", A3)] := by
  refine ⟨by decide, by decide, by decide, rfl⟩

/-- Claim C6 counterexample: constructing the system succeeds without
inspecting any applied rule label, and applying the unknown label
`modus_tollens` fails at apply time (proof-build time) with the unknown-rule
typing error — not at construction time. -/
theorem C6_counterexample :
    HilbertSystem.make = .ok hilbertSystem ∧
    hilbertSystem.apply "modus_tollens" [] "step1"
      = .error (.typing "step1: unknown rule modus_tollens") := by
  exact ⟨rfl, rfl⟩

/-- Claim C6 (amended): the registry built at construction is closed and
consistent — a label has a collected signature exactly when it has a rule
implementation — and an unknown rule label fails immediately in the
signature-check phase of apply, at proof-build time, with a typing error
naming the context, before any rule implementation is consulted. -/
theorem C6_registry_validation :
    ∀ (label : String),
      ((hilbertSystem.sigs.find? (fun p => p.1 = label)).isSome
        ↔ (hilbertSystem.rules label).isSome) ∧
      ((hilbertSystem.sigs.find? (fun p => p.1 = label)) = none →
        ∀ hyps ctx, hilbertSystem.apply label hyps ctx
          = .error (.typing (ctx ++ ": unknown rule " ++ label))) := by
  intro label
  constructor
  · simp only [hilbertSystem, hilbertSigs, hilbertRules, List.find?]
    by_cases h1 : label = "wi" <;> by_cases h2 : label = "mp" <;>
      by_cases h3 : label = "wn" <;> by_cases h4 : label = "wa" <;>
      simp_all [eq_comm]
  · intro hnone hyps ctx
    simp only [HilbertSystem.apply, ruleAppCheck]
    rw [show (hilbertSystem.sigs.find? (fun p => p.1 = label)) = none from hnone]
    rfl

theorem C6_witness :
    hilbertSystem.apply "zz" [] "c" = .error (.typing "c: unknown rule zz") :=
  (C6_registry_validation "zz").2 (by decide) [] "c"

/-- Claim C5 counterexample: a proof produced by `LemmaBuilder.build` on a
builder whose single recorded step has the formula for φ, finalised with the
formula for ψ, has a statement different from the last recorded step's
formula — `build` performs no such check. -/
theorem C5_counterexample :
    (c3Builder.build ⟨"wff", [Tok.var "ψ"]⟩).statement = ⟨"wff", [Tok.var "ψ"]⟩ ∧
    ((c3Builder.build ⟨"wff", [Tok.var "ψ"]⟩).steps.getLast?.map (fun s => s.wff))
      = some ⟨"wff", [Tok.var "φ"]⟩ ∧
    ((c3Builder.build ⟨"wff", [Tok.var "ψ"]⟩).statement : Wff) ≠ ⟨"wff", [Tok.var "φ"]⟩ := by
  refine ⟨rfl, by decide, by decide⟩

/-- Claim C5 (amended): `LemmaBuilder.build` returns a proof whose statement
is exactly the caller-supplied formula and whose steps are the recorded
steps, without checking the statement against the last step; the invariant
holds for the repository's lemma constructors, which pass the formula of
the last recorded step — as `prove_L1_id` does. -/
theorem C5_build_statement :
    (∀ (lb : LemmaBuilder) (statement : Wff),
      (lb.build statement).statement = statement ∧
      (lb.build statement).steps = lb.steps ∧
      (lb.build statement).name = lb.name) ∧
    prove_L1_id.toOption.map
        (fun p => decide (p.steps.getLast?.map (fun s => s.wff) = some p.statement))
      = some true := by
  exact ⟨fun lb st => ⟨rfl, rfl, rfl⟩, by decide⟩

theorem provLookup_mem (m : List (Nat × String)) (oid : Nat) (l : String)
    (h : provLookup m oid = some l) : ∃ q ∈ m, q.2 = l := by
  unfold provLookup at h
  cases hf : m.find? (fun p => p.1 = oid) with
  | none => rw [hf] at h; simp at h
  | some q =>
    rw [hf] at h
    injection h with h
    exact ⟨q, List.mem_of_find?_eq_some hf, h⟩

/-- Claim C3 counterexample: a formula compiled outside the builder
(the implication-side operand here is not even an implication) makes
`LemmaBuilder.mp` fail with the rule engine's ShapeError — not with the
builder-local referential-integrity error — so the claim's universal
statement fails. -/
theorem C3_counterexample :
    c3Builder.mp "s2" ⟨0, ⟨"wff", [Tok.var "φ"]⟩⟩ ⟨999, ⟨"wff", [Tok.neg, Tok.var "ψ"]⟩⟩ "n"
      = .error (.prelude (.shape "mp: expected token shape ( phi -> psi )")) := by
  rfl

/-- Claim C3 (amended): when the Modus Ponens application itself succeeds,
an operand whose identity is unknown to the builder's provenance map makes
`LemmaBuilder.mp` fail with the builder-local ValueError (referential
integrity) — an error kind distinct from the rule engine's typing and shape
errors — and no step is recorded (the builder state is returned only on
success). -/
theorem C3_referential_integrity :
    ∀ (lb : LemmaBuilder) (label note : String) (major minor : WffRef) (res : Wff),
      hilbertApply "mp"
          [⟨"h_" ++ label ++ "_maj", major.w⟩, ⟨"h_" ++ label ++ "_min", minor.w⟩] label
        = .ok res →
      (provLookup lb.wffToLabel major.oid = none ∨
        provLookup lb.wffToLabel minor.oid = none) →
      lb.mp label major minor note
        = .error (.value (label ++ ": mp args must be steps created by this LemmaBuilder")) ∧
      ∀ e, (BErr.value (label ++ ": mp args must be steps created by this LemmaBuilder"))
        ≠ .prelude e := by
  intro lb label note major minor res happ hnone
  refine ⟨?_, fun e h => BErr.noConfusion h⟩
  unfold LemmaBuilder.mp
  rw [happ]
  rcases hnone with h | h
  · rw [h]
  · rw [h]
    cases provLookup lb.wffToLabel major.oid <;> rfl

theorem C3_witness :
    c3Builder.mp "s2" ⟨0, ⟨"wff", [Tok.var "φ"]⟩⟩
        ⟨999, imp ⟨"wff", [Tok.var "φ"]⟩ ⟨"wff", [Tok.var "ψ"]⟩⟩ "n"
      = .error (.value ("s2" ++ ": mp args must be steps created by this LemmaBuilder")) :=
  (C3_referential_integrity c3Builder "s2" "n" ⟨0, ⟨"wff", [Tok.var "φ"]⟩⟩
    ⟨999, imp ⟨"wff", [Tok.var "φ"]⟩ ⟨"wff", [Tok.var "ψ"]⟩⟩ ⟨"wff", [Tok.var "ψ"]⟩
    (by rfl) (Or.inr (by decide))).1

/-- Claim C8: order of checks in `LemmaBuilder.mp` — the rule engine's Modus
Ponens is invoked before the operand-provenance lookup, so a rule-engine
failure is propagated unchanged even for operands unknown to the builder;
and the provenance lookup goes by object identity, not token equality, so a
token-identical operand with an unknown identity still triggers the
builder-local ValueError when the rule application succeeds. -/
theorem C8_order_of_checks :
    (∀ (lb : LemmaBuilder) (label note : String) (major minor : WffRef) (e : PErr),
      hilbertApply "mp"
          [⟨"h_" ++ label ++ "_maj", major.w⟩, ⟨"h_" ++ label ++ "_min", minor.w⟩] label
        = .error e →
      lb.mp label major minor note = .error (.prelude e)) ∧
    (∀ (lb : LemmaBuilder) (label note : String) (major minor : WffRef) (res : Wff),
      (∃ s ∈ lb.steps, s.wff = major.w) →
      hilbertApply "mp"
          [⟨"h_" ++ label ++ "_maj", major.w⟩, ⟨"h_" ++ label ++ "_min", minor.w⟩] label
        = .ok res →
      provLookup lb.wffToLabel major.oid = none →
      lb.mp label major minor note
        = .error (.value (label ++ ": mp args must be steps created by this LemmaBuilder"))) := by
  constructor
  · intro lb label note major minor e he
    unfold LemmaBuilder.mp
    rw [he]
  · intro lb label note major minor res _ happ hnone
    unfold LemmaBuilder.mp
    rw [happ, hnone]

theorem C8_witness :
    c3Builder.mp "w1" ⟨0, ⟨"wff", [Tok.var "φ"]⟩⟩ ⟨998, ⟨"wff", [Tok.var "φ"]⟩⟩ "n"
      = .error (.prelude (.shape "mp: expected token shape ( phi -> psi )")) ∧
    c3Builder.mp "w2" ⟨50, ⟨"wff", [Tok.var "φ"]⟩⟩
        ⟨51, imp ⟨"wff", [Tok.var "φ"]⟩ ⟨"wff", [Tok.var "ψ"]⟩⟩ "n"
      = .error (.value ("w2" ++ ": mp args must be steps created by this LemmaBuilder")) := by
  constructor
  · exact C8_order_of_checks.1 c3Builder "w1" "n" ⟨0, ⟨"wff", [Tok.var "φ"]⟩⟩
      ⟨998, ⟨"wff", [Tok.var "φ"]⟩⟩ (.shape "mp: expected token shape ( phi -> psi )") (by rfl)
  · exact C8_order_of_checks.2 c3Builder "w2" "n" ⟨50, ⟨"wff", [Tok.var "φ"]⟩⟩
      ⟨51, imp ⟨"wff", [Tok.var "φ"]⟩ ⟨"wff", [Tok.var "ψ"]⟩⟩ ⟨"wff", [Tok.var "ψ"]⟩
      ⟨⟨"s1", ⟨"wff", [Tok.var "φ"]⟩, "", "ref", [], some "A1"⟩, by decide, rfl⟩
      (by rfl) (by decide)

/-- Claim C9: builder step atomicity — each successful step operation
appends exactly one ProofStep (whose formula is the returned one) and
preserves provenance well-formedness; every operand label recorded by a
successful mp step names a step recorded earlier by the same builder.
On failure the operations return only the error, leaving the builder state
to the caller unchanged. -/
theorem C9_atomicity :
    (∀ (lb : LemmaBuilder) (label es : String) (r : WffRef) (lb2 : LemmaBuilder),
      lb.hyp label es = .ok (r, lb2) →
      lb2.steps = lb.steps ++ [⟨label, r.w, "Hypothesis", "hyp", [], none⟩] ∧
      (provWF lb → provWF lb2)) ∧
    (∀ (lb : LemmaBuilder) (label es rn note : String) (r : WffRef) (lb2 : LemmaBuilder),
      lb.ref label es rn note = .ok (r, lb2) →
      lb2.steps = lb.steps ++ [⟨label, r.w, note, "ref", [], some rn⟩] ∧
      (provWF lb → provWF lb2)) ∧
    (∀ (lb : LemmaBuilder) (label es note : String) (r : WffRef) (lb2 : LemmaBuilder),
      lb.raw label es note = .ok (r, lb2) →
      lb2.steps = lb.steps ++ [⟨label, r.w, note, "raw", [], none⟩] ∧
      (provWF lb → provWF lb2)) ∧
    (∀ (lb : LemmaBuilder) (label note : String) (major minor : WffRef)
        (r : WffRef) (lb2 : LemmaBuilder) (l1 l2 : String),
      provWF lb →
      provLookup lb.wffToLabel major.oid = some l1 →
      provLookup lb.wffToLabel minor.oid = some l2 →
      lb.mp label major minor note = .ok (r, lb2) →
      lb2.steps = lb.steps ++ [⟨label, r.w, note, "mp", [l1, l2], none⟩] ∧
      (∃ s ∈ lb.steps, s.label = l1) ∧
      (∃ s ∈ lb.steps, s.label = l2) ∧
      provWF lb2) := by
  refine ⟨?_, ?_, ?_, ?_⟩
  · intro lb label es r lb2 h
    unfold LemmaBuilder.hyp at h
    cases hc : LemmaBuilder.compileStr label es with
    | error e => rw [hc] at h; simp at h
    | ok stmt =>
      rw [hc] at h
      injection h with h
      injection h with hr hlb
      subst hr
      subst hlb
      refine ⟨rfl, fun hwf p hp => ?_⟩
      rcases List.mem_cons.mp hp with hp | hp
      · exact ⟨⟨label, stmt, "Hypothesis", "hyp", [], none⟩, by simp [hp], by simp [hp]⟩
      · obtain ⟨s, hs, hsl⟩ := hwf p hp
        exact ⟨s, List.mem_append_left _ hs, hsl⟩
  · intro lb label es rn note r lb2 h
    unfold LemmaBuilder.ref at h
    cases hc : LemmaBuilder.compileStr label es with
    | error e => rw [hc] at h; simp at h
    | ok stmt =>
      rw [hc] at h
      injection h with h
      injection h with hr hlb
      subst hr
      subst hlb
      refine ⟨rfl, fun hwf p hp => ?_⟩
      rcases List.mem_cons.mp hp with hp | hp
      · exact ⟨⟨label, stmt, note, "ref", [], some rn⟩, by simp [hp], by simp [hp]⟩
      · obtain ⟨s, hs, hsl⟩ := hwf p hp
        exact ⟨s, List.mem_append_left _ hs, hsl⟩
  · intro lb label es note r lb2 h
    unfold LemmaBuilder.raw at h
    cases hc : LemmaBuilder.compileStr label es with
    | error e => rw [hc] at h; simp at h
    | ok stmt =>
      rw [hc] at h
      injection h with h
      injection h with hr hlb
      subst hr
      subst hlb
      refine ⟨rfl, fun hwf p hp => ?_⟩
      rcases List.mem_cons.mp hp with hp | hp
      · exact ⟨⟨label, stmt, note, "raw", [], none⟩, by simp [hp], by simp [hp]⟩
      · obtain ⟨s, hs, hsl⟩ := hwf p hp
        exact ⟨s, List.mem_append_left _ hs, hsl⟩
  · intro lb label note major minor r lb2 l1 l2 hwf hm1 hm2 h
    unfold LemmaBuilder.mp at h
    cases ha : hilbertApply "mp"
        [⟨"h_" ++ label ++ "_maj", major.w⟩, ⟨"h_" ++ label ++ "_min", minor.w⟩] label with
    | error e => rw [ha] at h; simp at h
    | ok res =>
      rw [ha] at h
      rw [hm1, hm2] at h
      injection h with h
      injection h with hr hlb
      subst hr
      subst hlb
      refine ⟨rfl, ?_, ?_, ?_⟩
      · obtain ⟨q, hq, hql⟩ := provLookup_mem _ _ _ hm1
        obtain ⟨s, hs, hsl⟩ := hwf q hq
        exact ⟨s, hs, by rw [hsl, hql]⟩
      · obtain ⟨q, hq, hql⟩ := provLookup_mem _ _ _ hm2
        obtain ⟨s, hs, hsl⟩ := hwf q hq
        exact ⟨s, hs, by rw [hsl, hql]⟩
      · intro p hp
        rcases List.mem_cons.mp hp with hp | hp
        · exact ⟨⟨label, res, note, "mp", [l1, l2], none⟩, by simp [hp], by simp [hp]⟩
        · obtain ⟨s, hs, hsl⟩ := hwf p hp
          exact ⟨s, List.mem_append_left _ hs, hsl⟩


theorem C9_witness :
    c9Lb2.steps = (LemmaBuilder.init "t").steps
      ++ [⟨"h1", ⟨"wff", [Tok.var "φ"]⟩, "Hypothesis", "hyp", [], none⟩] ∧
    c9AfterMp.steps = c9Builder.steps
      ++ [⟨"s3", ⟨"wff", [Tok.var "ψ"]⟩, "n", "mp", ["s1", "s2"], none⟩] := by
  constructor
  · exact (C9_atomicity.1 (LemmaBuilder.init "t") "h1" "φ"
      ⟨0, ⟨"wff", [Tok.var "φ"]⟩⟩ c9Lb2 (by rfl)).1
  · have hwf : provWF c9Builder := by
      intro p hp
      have he : c9Builder.wffToLabel = [(1, "s2"), (0, "s1")] := rfl
      rw [he] at hp
      rcases List.mem_cons.mp hp with h | h
      · subst h
        exact ⟨⟨"s2", ⟨"wff", [Tok.lp, Tok.var "φ", Tok.arrow, Tok.var "ψ", Tok.rp]⟩,
          "", "ref", [], some "A1"⟩, by decide, rfl⟩
      · rcases List.mem_cons.mp h with h2 | h2
        · subst h2
          exact ⟨⟨"s1", ⟨"wff", [Tok.var "φ"]⟩, "", "ref", [], some "A1"⟩, by decide, rfl⟩
        · simp at h2
    exact (C9_atomicity.2.2.2 c9Builder "s3" "n" ⟨0, ⟨"wff", [Tok.var "φ"]⟩⟩
      ⟨1, ⟨"wff", [Tok.lp, Tok.var "φ", Tok.arrow, Tok.var "ψ", Tok.rp]⟩⟩
      ⟨2, ⟨"wff", [Tok.var "ψ"]⟩⟩ c9AfterMp "s1" "s2" hwf rfl rfl (by rfl)).1
